import Mathlib

/-!
# Verification of the time-sliced execution scheduler (`scripts/binance_buyer.go`)

This file gives a shallow embedding of the two components of the repository's
core logic and proves the frozen claims about them:

* the duration parser `parseDuration` (Go lines 264-299), and
* the plan construction and execution loop of `main` (Go lines 373-439).

Modelling conventions:

* Go `float64` amounts are modelled as exact rationals `ℚ` for the plan
  shape, the guards and the structural loop facts.  Where a property depends
  on rounding residue — the LINEAR loop's early stop when the rounded-up
  `usdtPerTrade = fl(amountToUse/n)` outruns the remaining budget — the file
  additionally models IEEE-754 binary64 arithmetic exactly (the `FP` section)
  and evaluates the affected runs bit-for-bit.  The Go code divides by
  `totalSeconds` without a zero guard; in IEEE float64 this yields `+Inf`
  (positive budget) or `NaN` (zero budget), and in both cases the test
  `usdtPerSecond < 1.0` is false, so the LINEAR branch is taken.  Since `ℚ`
  division totalises `x / 0 = 0`, the embedding makes that behaviour explicit
  by conjoining `totalSeconds ≠ 0` to the QUANTIZED branch condition.
* Go `int(x)` float-to-int conversion truncates toward zero (`goTrunc`),
  and `math.Round` rounds half away from zero (`goRound`).
* `strconv.Atoi` on a 64-bit platform fails for values above `2^63 - 1`
  (`maxInt64`); the digit strings matched by the regex are non-negative.
* The network venue is abstracted as `venue : ℕ → Bool`: whether the i-th
  order dispatch succeeds.  Sleeps and order attempts are recorded as an
  event trace so that scheduling claims are statable.
-/

namespace BinanceBuyer

/-! ## Duration parser (Go lines 264-299) -/

/-- The three distinct error messages `parseDuration` can produce:
`"invalid duration format..."` when the regex does not match,
`"invalid number in duration..."` when `strconv.Atoi` fails (overflow), and
`"invalid time unit..."` when the switch falls through to `default`. -/
inductive DurationError where
  | invalidFormat
  | invalidNumber
  | invalidUnit
deriving DecidableEq, Repr

/-- The character class of the Go regex `^(\d+)([smhHdDwWM])$` (line 266).
Note it admits lowercase `h`, `d`, `w`, which the unit switch then rejects. -/
def reUnitChars : List Char := ['s', 'm', 'h', 'H', 'd', 'D', 'w', 'W', 'M']

/-- The unit symbols the spec's grammar recognises: `{s, m, H, D, W, M}`. -/
def specUnitChars : List Char := ['s', 'm', 'H', 'D', 'W', 'M']

/-- Decimal value of a digit string, as `strconv.Atoi` computes it. -/
def digitsToNat (cs : List Char) : Nat :=
  cs.foldl (fun acc c => acc * 10 + (c.toNat - '0'.toNat)) 0

/-- Largest value `strconv.Atoi` accepts on a 64-bit platform. -/
def maxInt64 : Nat := 9223372036854775807

/-- Whether `s` consists of one or more digits immediately followed by exactly
one character from `units` (whole-string match, no trimming). -/
def grammarMatch (units : List Char) (s : String) : Bool :=
  match s.data.reverse with
  | [] => false
  | u :: revDs => !revDs.isEmpty && (revDs.reverse.all Char.isDigit) && units.contains u

/-- The numeric part of a duration string (0 when there is none). -/
def digitsVal (s : String) : Nat :=
  match s.data.reverse with
  | [] => 0
  | _ :: revDs => digitsToNat revDs.reverse

/-- Embedding of `parseDuration` (Go lines 264-299), returning the span in
whole seconds.  The regex match comes first, then the `Atoi` conversion
(which fails above `maxInt64`), then the unit switch whose `default` arm
rejects the lowercase `h`/`d`/`w` admitted by the regex. -/
def parseDuration (s : String) : Except DurationError Nat :=
  match s.data.reverse with
  | [] => .error .invalidFormat
  | u :: revDs =>
    if !revDs.isEmpty && (revDs.reverse.all Char.isDigit) && reUnitChars.contains u then
      let value := digitsToNat revDs.reverse
      if value ≤ maxInt64 then
        if u = 's' then .ok value
        else if u = 'm' then .ok (value * 60)
        else if u = 'H' then .ok (value * 3600)
        else if u = 'D' then .ok (value * 86400)
        else if u = 'W' then .ok (value * 604800)
        else if u = 'M' then .ok (value * 2592000)
        else .error .invalidUnit
      else .error .invalidNumber
    else .error .invalidFormat

/-- C8: the parser maps units case-sensitively to fixed second counts:
`30s` → 30, `2H` → 7200, `1D` → 86400, `1W` → 604800, `1M` → 2592000 (the
fixed 30-day approximation), and `1m` → 60, distinct from `1M`. -/
theorem C8_unit_semantics :
    parseDuration "30s" = .ok 30 ∧
    parseDuration "2H" = .ok 7200 ∧
    parseDuration "1D" = .ok 86400 ∧
    parseDuration "1W" = .ok 604800 ∧
    parseDuration "1M" = .ok 2592000 ∧
    parseDuration "1m" = .ok 60 ∧
    parseDuration "1m" ≠ parseDuration "1M" := by
  refine ⟨rfl, rfl, rfl, rfl, rfl, rfl, ?_⟩
  intro h
  rw [show parseDuration "1m" = .ok 60 from rfl,
    show parseDuration "1M" = .ok 2592000 from rfl] at h
  simp at h

/-! ## Execution scheduler: plan construction (Go lines 373-418) -/

/-- `math.Round`: round half away from zero. -/
def goRound (x : ℚ) : ℤ :=
  if 0 ≤ x then ⌊x + 1 / 2⌋ else ⌈x - 1 / 2⌉

/-- `usdtPerSecond := math.Round((amountToUse/totalSeconds)*100) / 100`
(Go line 375), i.e. rounding to two decimal places. -/
def round2 (x : ℚ) : ℚ := (goRound (x * 100) : ℚ) / 100

/-- Go `int(x)` conversion from float: truncation toward zero. -/
def goTrunc (x : ℚ) : ℤ := if 0 ≤ x then ⌊x⌋ else -⌊-x⌋

inductive Mode where
  | LINEAR
  | QUANTIZED
deriving DecidableEq, Repr

/-- The shape of a run, as computed once by `main` before its loop:
`sliceCount` many order attempts of `sliceSize` quote units each, spaced
`intervalSeconds` apart. -/
structure Plan where
  mode : Mode
  sliceCount : ℕ
  sliceSize : ℚ
  intervalSeconds : ℚ
deriving DecidableEq, Repr

/-- Plan construction (Go lines 373-418).  The branch test is
`usdtPerSecond < 1.0`; when `totalSeconds = 0` the float64 rate is `+Inf` or
`NaN` and the test is false, which the `totalSeconds ≠ 0` conjunct encodes.
QUANTIZED: `nIntervals := int(amountToUse)` (line 385) and
`intervalDuration := time.Duration(duration.Seconds()/float64(nIntervals)) *
time.Second` (line 390).  LINEAR: `numberOfTrades := int(totalSeconds)`
(line 412) and `usdtPerTrade := amountToUse / float64(numberOfTrades)`
(line 417); the code returns before using `sliceSize`/`intervalSeconds`
when `sliceCount = 0`. -/
def buildPlan (amountToUse totalSeconds : ℚ) : Plan :=
  if totalSeconds ≠ 0 ∧ round2 (amountToUse / totalSeconds) < 1 then
    let n := (goTrunc amountToUse).toNat
    { mode := .QUANTIZED, sliceCount := n, sliceSize := 1,
      intervalSeconds := ((goTrunc (totalSeconds / (n : ℚ))) : ℚ) }
  else
    let n := (goTrunc totalSeconds).toNat
    { mode := .LINEAR, sliceCount := n, sliceSize := amountToUse / (n : ℚ),
      intervalSeconds := 1 }

/-! ## Execution scheduler: the loops (Go lines 392-409 and 420-436) -/

/-- Observable steps of a run: an order dispatch (with its quote amount and
whether the venue accepted it) or a timed suspension. -/
inductive Event where
  | attempt (index : ℕ) (amount : ℚ) (success : Bool)
  | sleep (seconds : ℚ)
deriving DecidableEq, Repr

/-- The LINEAR loop (Go lines 421-436), recursing on the number of iterations
left.  Before each attempt the remaining amount is checked against
`usdtPerTrade` (line 422, `break` on shortfall); a successful dispatch
decrements the remaining amount (line 432), a failed one only logs
(line 428); `time.Sleep(time.Second)` (line 435) runs on every iteration,
including the last. -/
def linearLoop (venue : ℕ → Bool) (usdtPerTrade : ℚ) :
    ℕ → ℕ → ℚ → ℚ × List Event
  | 0, _, amt => (amt, [])
  | fuel + 1, i, amt =>
    if amt < usdtPerTrade then (amt, [])
    else
      let ok := venue i
      let amt' := if ok then amt - usdtPerTrade else amt
      let rest := linearLoop venue usdtPerTrade fuel (i + 1) amt'
      (rest.1, .attempt i usdtPerTrade ok :: .sleep 1 :: rest.2)

/-- The QUANTIZED loop (Go lines 392-409): each attempt dispatches exactly
`1.0` quote unit; the shortfall check is `amountToUse < 1.0` (line 393);
the suspension is guarded by `i < nIntervals-1` (line 406), so there is no
sleep after the final iteration. -/
def quantizedLoop (venue : ℕ → Bool) (intervalSeconds : ℚ) (nIntervals : ℕ) :
    ℕ → ℕ → ℚ → ℚ × List Event
  | 0, _, amt => (amt, [])
  | fuel + 1, i, amt =>
    if amt < 1 then (amt, [])
    else
      let ok := venue i
      let amt' := if ok then amt - 1 else amt
      let rest := quantizedLoop venue intervalSeconds nIntervals fuel (i + 1) amt'
      if i < nIntervals - 1 then
        (rest.1, .attempt i 1 ok :: .sleep intervalSeconds :: rest.2)
      else
        (rest.1, .attempt i 1 ok :: rest.2)

/-- Executes a plan: with `sliceCount = 0` both branches of `main` return
before their loop (lines 386-389 and 413-416); otherwise the corresponding
loop runs for `sliceCount` scheduled iterations. -/
def runPlan (venue : ℕ → Bool) (p : Plan) (amountToUse : ℚ) : ℚ × List Event :=
  if p.sliceCount = 0 then (amountToUse, [])
  else
    match p.mode with
    | .LINEAR => linearLoop venue p.sliceSize p.sliceCount 0 amountToUse
    | .QUANTIZED =>
      quantizedLoop venue p.intervalSeconds p.sliceCount p.sliceCount 0 amountToUse

/-- The whole scheduler run of `main` (Go lines 373-439): build the plan from
the budget and the parsed duration, then execute it; returns the final
remaining amount and the event trace. -/
def runSchedule (venue : ℕ → Bool) (amountToUse totalSeconds : ℚ) :
    ℚ × List Event :=
  runPlan venue (buildPlan amountToUse totalSeconds) amountToUse

/-! ## Trace accounting -/

/-- The quote amount a single event removes from the remaining budget:
only a successful order dispatch consumes its amount (Go line 432 / 403). -/
def Event.successAmount : Event → ℚ
  | .attempt _ a true => a
  | _ => 0

/-- Total quote amount consumed by the successful dispatches of a trace. -/
def successSum (evs : List Event) : ℚ := (evs.map Event.successAmount).sum

/-- The remaining budget after replaying a (prefix of a) trace from `amt`. -/
def replay (amt : ℚ) (evs : List Event) : ℚ := amt - successSum evs

def Event.isAttempt : Event → Bool
  | .attempt _ _ _ => true
  | .sleep _ => false

/-- The order attempts of a trace, in dispatch order. -/
def attemptsOf (evs : List Event) : List Event := evs.filter Event.isAttempt

def countAttempts (evs : List Event) : ℕ := (attemptsOf evs).length

def countSleeps (evs : List Event) : ℕ :=
  (evs.filter fun e => !e.isAttempt).length

/-- A venue that fails every third dispatch (dispatches 3, 6, 9, ...). -/
def failsEveryThird : ℕ → Bool := fun i => !((i + 1) % 3 == 0)

@[simp]
lemma successAmount_attempt (i : ℕ) (a : ℚ) (ok : Bool) :
    Event.successAmount (.attempt i a ok) = if ok then a else 0 := by
  cases ok <;> rfl

@[simp]
lemma successAmount_sleep (s : ℚ) : Event.successAmount (.sleep s) = 0 := rfl

@[simp] lemma successSum_nil : successSum [] = 0 := rfl

@[simp]
lemma successSum_cons (e : Event) (evs : List Event) :
    successSum (e :: evs) = e.successAmount + successSum evs := by
  simp [successSum]

lemma successSum_append (l₁ l₂ : List Event) :
    successSum (l₁ ++ l₂) = successSum l₁ + successSum l₂ := by
  simp [successSum]

@[simp]
lemma isAttempt_attempt (i : ℕ) (a : ℚ) (ok : Bool) :
    Event.isAttempt (.attempt i a ok) = true := rfl

@[simp]
lemma isAttempt_sleep (s : ℚ) : Event.isAttempt (.sleep s) = false := rfl

/-! ## The event traces the loops produce when no early stop occurs -/

/-- The full LINEAR trace: `fuel` iterations starting at index `i`, each an
attempt followed by the unconditional one-second sleep of Go line 435. -/
def linearTrace (venue : ℕ → Bool) (u : ℚ) : ℕ → ℕ → List Event
  | 0, _ => []
  | fuel + 1, i =>
    .attempt i u (venue i) :: .sleep 1 :: linearTrace venue u fuel (i + 1)

/-- The full QUANTIZED trace: `fuel` iterations starting at index `i`; the
sleep is skipped on the final iteration (`i < nIntervals - 1`, Go line 406). -/
def quantizedTrace (venue : ℕ → Bool) (iv : ℚ) (n : ℕ) : ℕ → ℕ → List Event
  | 0, _ => []
  | fuel + 1, i =>
    if i < n - 1 then
      .attempt i 1 (venue i) :: .sleep iv :: quantizedTrace venue iv n fuel (i + 1)
    else
      .attempt i 1 (venue i) :: quantizedTrace venue iv n fuel (i + 1)

/-- As long as the remaining amount covers all scheduled trades
(`fuel * u ≤ amt`), the LINEAR loop never stops early: it performs all
`fuel` attempts and consumes exactly the successful ones' amounts. -/
lemma linearLoop_eq (venue : ℕ → Bool) (u : ℚ) (hu : 0 ≤ u) :
    ∀ (fuel i : ℕ) (amt : ℚ), (fuel : ℚ) * u ≤ amt →
      linearLoop venue u fuel i amt =
        (amt - successSum (linearTrace venue u fuel i), linearTrace venue u fuel i) := by
  intro fuel
  induction fuel with
  | zero => intro i amt _; simp [linearLoop, linearTrace]
  | succ fuel ih =>
    intro i amt hf
    have hfu : 0 ≤ (fuel : ℚ) * u := mul_nonneg (by positivity) hu
    have hle : u ≤ amt := by push_cast at hf; nlinarith
    have h2 : (fuel : ℚ) * u ≤ (if venue i then amt - u else amt) := by
      split
      · push_cast at hf; nlinarith
      · push_cast at hf; nlinarith
    rw [linearLoop, if_neg (not_lt.2 hle)]
    simp only []
    rw [ih (i + 1) _ h2]
    rw [linearTrace]
    cases hvi : venue i <;> (simp [hvi]; try ring)

/-- As long as the remaining amount covers all scheduled quanta
(`fuel ≤ amt`), the QUANTIZED loop never stops early. -/
lemma quantizedLoop_eq (venue : ℕ → Bool) (iv : ℚ) (n : ℕ) :
    ∀ (fuel i : ℕ) (amt : ℚ), (fuel : ℚ) ≤ amt →
      quantizedLoop venue iv n fuel i amt =
        (amt - successSum (quantizedTrace venue iv n fuel i),
          quantizedTrace venue iv n fuel i) := by
  intro fuel
  induction fuel with
  | zero => intro i amt _; simp [quantizedLoop, quantizedTrace]
  | succ fuel ih =>
    intro i amt hf
    have hle : (1 : ℚ) ≤ amt := by push_cast at hf; linarith
    have h2 : (fuel : ℚ) ≤ (if venue i then amt - 1 else amt) := by
      split
      · push_cast at hf; linarith
      · push_cast at hf; linarith
    rw [quantizedLoop, if_neg (not_lt.2 hle)]
    simp only []
    rw [ih (i + 1) _ h2]
    rw [quantizedTrace]
    by_cases hi : i < n - 1 <;>
      cases hvi : venue i <;> simp [hi, hvi] <;> ring

/-- The full event trace of a run (no early stop occurs when the loops start
from the very budget the plan was built from; proved in `runSchedule_eq`). -/
def runTrace (venue : ℕ → Bool) (amt ts : ℚ) : List Event :=
  let p := buildPlan amt ts
  if p.sliceCount = 0 then []
  else
    match p.mode with
    | .LINEAR => linearTrace venue p.sliceSize p.sliceCount 0
    | .QUANTIZED => quantizedTrace venue p.intervalSeconds p.sliceCount p.sliceCount 0

/-- The two plan shapes, by branch condition. -/
lemma buildPlan_pos (amt ts : ℚ) (h : ts ≠ 0 ∧ round2 (amt / ts) < 1) :
    buildPlan amt ts =
      { mode := .QUANTIZED, sliceCount := (goTrunc amt).toNat, sliceSize := 1,
        intervalSeconds := ((goTrunc (ts / ((goTrunc amt).toNat : ℚ))) : ℚ) } := by
  rw [buildPlan, if_pos h]

lemma buildPlan_neg (amt ts : ℚ) (h : ¬(ts ≠ 0 ∧ round2 (amt / ts) < 1)) :
    buildPlan amt ts =
      { mode := .LINEAR, sliceCount := (goTrunc ts).toNat,
        sliceSize := amt / (((goTrunc ts).toNat : ℕ) : ℚ), intervalSeconds := 1 } := by
  rw [buildPlan, if_neg h]

/-- `goTrunc` agrees with the floor on non-negative arguments. -/
lemma goTrunc_of_nonneg (x : ℚ) (h : 0 ≤ x) : goTrunc x = ⌊x⌋ := by
  rw [goTrunc, if_pos h]

/-- A non-negative rational dominates the cast of `(goTrunc x).toNat`. -/
lemma goTrunc_toNat_le (x : ℚ) (h : 0 ≤ x) : (((goTrunc x).toNat : ℕ) : ℚ) ≤ x := by
  rw [goTrunc_of_nonneg x h]
  have h1 : ((⌊x⌋.toNat : ℤ) : ℚ) = ((⌊x⌋ : ℤ) : ℚ) := by
    exact_mod_cast congrArg (fun z => ((z : ℤ) : ℚ))
      (Int.toNat_of_nonneg (Int.floor_nonneg.2 h))
  calc ((⌊x⌋.toNat : ℕ) : ℚ) = ((⌊x⌋.toNat : ℤ) : ℚ) := by push_cast; ring
    _ = ((⌊x⌋ : ℤ) : ℚ) := h1
    _ ≤ x := Int.floor_le x

/-- If the LINEAR slice count is positive then the duration was non-negative
(otherwise `goTrunc` yields a non-positive integer and `toNat` is zero). -/
lemma goTrunc_toNat_pos_nonneg (x : ℚ) (h : (goTrunc x).toNat ≠ 0) : 0 ≤ x := by
  by_contra hneg
  push_neg at hneg
  apply h
  rw [goTrunc, if_neg (not_le.2 hneg)]
  simp only [Int.toNat_eq_zero, neg_nonpos]
  exact Int.floor_nonneg.2 (by linarith)

/-- Evaluation of `goTrunc` followed by `toNat` on whole numbers. -/
lemma goTrunc_nat (x : ℚ) (n : ℕ) (h : x = (n : ℚ)) : (goTrunc x).toNat = n := by
  subst h
  rw [goTrunc_of_nonneg _ (by positivity), Int.floor_natCast, Int.toNat_natCast]

/-- Master lemma: started on the budget its plan was built from, the run
never stops early; it returns the full trace and the budget minus the total
of the successfully dispatched amounts. -/
lemma runSchedule_eq (venue : ℕ → Bool) (amt ts : ℚ) (h : 0 ≤ amt) :
    runSchedule venue amt ts =
      (amt - successSum (runTrace venue amt ts), runTrace venue amt ts) := by
  rw [runSchedule, runPlan, runTrace]
  by_cases hb : ts ≠ 0 ∧ round2 (amt / ts) < 1
  · rw [buildPlan_pos amt ts hb]
    simp only []
    by_cases h0 : (goTrunc amt).toNat = 0
    · simp [h0]
    · rw [if_neg h0, if_neg h0]
      exact quantizedLoop_eq venue _ _ _ 0 amt (goTrunc_toNat_le amt h)
  · rw [buildPlan_neg amt ts hb]
    simp only []
    by_cases h0 : (goTrunc ts).toNat = 0
    · simp [h0]
    · rw [if_neg h0, if_neg h0]
      have hn : (((goTrunc ts).toNat : ℕ) : ℚ) ≠ 0 := by
        exact_mod_cast h0
      have hu : 0 ≤ amt / (((goTrunc ts).toNat : ℕ) : ℚ) := by
        apply div_nonneg h
        positivity
      apply linearLoop_eq venue _ hu
      rw [mul_div_cancel₀ _ hn]

lemma runSchedule_fst (venue : ℕ → Bool) (amt ts : ℚ) (h : 0 ≤ amt) :
    (runSchedule venue amt ts).1 = amt - successSum (runTrace venue amt ts) := by
  rw [runSchedule_eq venue amt ts h]

lemma runSchedule_snd (venue : ℕ → Bool) (amt ts : ℚ) (h : 0 ≤ amt) :
    (runSchedule venue amt ts).2 = runTrace venue amt ts := by
  rw [runSchedule_eq venue amt ts h]

/-! ## Structural facts about the traces -/

lemma mem_linearTrace (venue : ℕ → Bool) (u : ℚ) :
    ∀ (fuel i : ℕ) (e : Event), e ∈ linearTrace venue u fuel i →
      (∃ j, e = .attempt j u (venue j)) ∨ e = .sleep 1 := by
  intro fuel
  induction fuel with
  | zero => intro i e he; simp [linearTrace] at he
  | succ fuel ih =>
    intro i e he
    rw [linearTrace] at he
    rcases List.mem_cons.1 he with he | he
    · exact Or.inl ⟨i, he⟩
    rcases List.mem_cons.1 he with he | he
    · exact Or.inr he
    · exact ih (i + 1) e he

lemma mem_quantizedTrace (venue : ℕ → Bool) (iv : ℚ) (n : ℕ) :
    ∀ (fuel i : ℕ) (e : Event), e ∈ quantizedTrace venue iv n fuel i →
      (∃ j, e = .attempt j 1 (venue j)) ∨ e = .sleep iv := by
  intro fuel
  induction fuel with
  | zero => intro i e he; simp [quantizedTrace] at he
  | succ fuel ih =>
    intro i e he
    rw [quantizedTrace] at he
    by_cases hi : i < n - 1
    · rw [if_pos hi] at he
      rcases List.mem_cons.1 he with he | he
      · exact Or.inl ⟨i, he⟩
      rcases List.mem_cons.1 he with he | he
      · exact Or.inr he
      · exact ih (i + 1) e he
    · rw [if_neg hi] at he
      rcases List.mem_cons.1 he with he | he
      · exact Or.inl ⟨i, he⟩
      · exact ih (i + 1) e he

lemma attemptsOf_linearTrace (venue : ℕ → Bool) (u : ℚ) :
    ∀ (fuel i : ℕ), attemptsOf (linearTrace venue u fuel i) =
      (List.range' i fuel).map (fun j => Event.attempt j u (venue j)) := by
  intro fuel
  induction fuel with
  | zero => intro i; simp [linearTrace, attemptsOf]
  | succ fuel ih =>
    intro i
    rw [linearTrace, List.range'_succ]
    simp only [attemptsOf, List.filter, isAttempt_attempt, isAttempt_sleep, List.map]
    rw [← attemptsOf, ih (i + 1)]

lemma attemptsOf_quantizedTrace (venue : ℕ → Bool) (iv : ℚ) (n : ℕ) :
    ∀ (fuel i : ℕ), attemptsOf (quantizedTrace venue iv n fuel i) =
      (List.range' i fuel).map (fun j => Event.attempt j 1 (venue j)) := by
  intro fuel
  induction fuel with
  | zero => intro i; simp [quantizedTrace, attemptsOf]
  | succ fuel ih =>
    intro i
    rw [quantizedTrace, List.range'_succ]
    by_cases hi : i < n - 1
    · rw [if_pos hi]
      simp only [attemptsOf, List.filter, isAttempt_attempt, isAttempt_sleep, List.map]
      rw [← attemptsOf, ih (i + 1)]
    · rw [if_neg hi]
      simp only [attemptsOf, List.filter, isAttempt_attempt, List.map]
      rw [← attemptsOf, ih (i + 1)]

lemma countSleeps_linearTrace (venue : ℕ → Bool) (u : ℚ) :
    ∀ (fuel i : ℕ), countSleeps (linearTrace venue u fuel i) = fuel := by
  intro fuel
  induction fuel with
  | zero => intro i; simp [linearTrace, countSleeps]
  | succ fuel ih =>
    intro i
    rw [linearTrace]
    simp only [countSleeps, List.filter, isAttempt_attempt, isAttempt_sleep,
      Bool.not_true, Bool.not_false, List.length_cons]
    rw [← countSleeps, ih (i + 1)]

lemma countSleeps_quantizedTrace (venue : ℕ → Bool) (iv : ℚ) (n : ℕ) :
    ∀ (fuel i : ℕ), i + 1 + fuel = n →
      countSleeps (quantizedTrace venue iv n (fuel + 1) i) = fuel := by
  intro fuel
  induction fuel with
  | zero =>
    intro i hi
    have hni : ¬ i < n - 1 := by omega
    rw [quantizedTrace, if_neg hni]
    simp [quantizedTrace, countSleeps]
  | succ fuel ih =>
    intro i hi
    have hlt : i < n - 1 := by omega
    rw [quantizedTrace, if_pos hlt]
    simp only [countSleeps, List.filter, isAttempt_attempt, isAttempt_sleep,
      Bool.not_true, Bool.not_false, List.length_cons]
    rw [← countSleeps, ih (i + 1) (by omega)]

lemma quantizedTrace_cons (venue : ℕ → Bool) (iv : ℚ) (n fuel i : ℕ) :
    ∃ rest, quantizedTrace venue iv n (fuel + 1) i =
      Event.attempt i 1 (venue i) :: rest := by
  by_cases hi : i < n - 1
  · exact ⟨_, by rw [quantizedTrace, if_pos hi]⟩
  · exact ⟨_, by rw [quantizedTrace, if_neg hi]⟩

lemma linearTrace_getLast (venue : ℕ → Bool) (u : ℚ) :
    ∀ (fuel i : ℕ),
      (linearTrace venue u (fuel + 1) i).getLast? = some (Event.sleep 1) := by
  intro fuel
  induction fuel with
  | zero => intro i; rfl
  | succ fuel ih =>
    intro i
    show (Event.attempt i u (venue i) :: Event.sleep 1 ::
      linearTrace venue u (fuel + 1) (i + 1)).getLast? = some (Event.sleep 1)
    have hT : linearTrace venue u (fuel + 1) (i + 1) =
        Event.attempt (i + 1) u (venue (i + 1)) :: Event.sleep 1 ::
          linearTrace venue u fuel (i + 2) := rfl
    rw [List.getLast?_cons_cons, hT, List.getLast?_cons_cons, ← hT, ih (i + 1)]

lemma quantizedTrace_getLast (venue : ℕ → Bool) (iv : ℚ) (n : ℕ) :
    ∀ (fuel i : ℕ), i + 1 + fuel = n →
      (quantizedTrace venue iv n (fuel + 1) i).getLast? =
        some (Event.attempt (n - 1) 1 (venue (n - 1))) := by
  intro fuel
  induction fuel with
  | zero =>
    intro i hi
    have hni : ¬ i < n - 1 := by omega
    have hi' : i = n - 1 := by omega
    rw [quantizedTrace, if_neg hni, hi']
    rfl
  | succ fuel ih =>
    intro i hi
    have hlt : i < n - 1 := by omega
    rw [quantizedTrace, if_pos hlt]
    obtain ⟨rest, hT⟩ := quantizedTrace_cons venue iv n fuel (i + 1)
    rw [List.getLast?_cons_cons, hT, List.getLast?_cons_cons, ← hT,
      ih (i + 1) (by omega)]

lemma successSum_linearTrace_true (u : ℚ) :
    ∀ (fuel i : ℕ),
      successSum (linearTrace (fun _ => true) u fuel i) = (fuel : ℚ) * u := by
  intro fuel
  induction fuel with
  | zero => intro i; simp [linearTrace]
  | succ fuel ih =>
    intro i
    rw [linearTrace]
    simp only [successSum_cons, successAmount_attempt, successAmount_sleep, if_pos]
    rw [ih (i + 1)]
    push_cast
    ring

lemma successSum_quantizedTrace_true (iv : ℚ) (n : ℕ) :
    ∀ (fuel i : ℕ),
      successSum (quantizedTrace (fun _ => true) iv n fuel i) = (fuel : ℚ) := by
  intro fuel
  induction fuel with
  | zero => intro i; simp [quantizedTrace]
  | succ fuel ih =>
    intro i
    rw [quantizedTrace]
    by_cases hi : i < n - 1 <;>
      [rw [if_pos hi]; rw [if_neg hi]] <;>
      simp only [successSum_cons, successAmount_attempt, successAmount_sleep, if_pos] <;>
      rw [ih (i + 1)] <;> push_cast <;> ring

/-- The amount of every attempt in a LINEAR trace is covered by the remaining
budget at the moment it is dispatched (replaying the preceding events). -/
lemma linearTrace_dispatch (venue : ℕ → Bool) (u : ℚ) (hu : 0 ≤ u) :
    ∀ (fuel i : ℕ) (amt : ℚ), (fuel : ℚ) * u ≤ amt →
      ∀ (l₁ : List Event) (j : ℕ) (a : ℚ) (ok : Bool) (l₂ : List Event),
        linearTrace venue u fuel i = l₁ ++ Event.attempt j a ok :: l₂ →
        a ≤ amt - successSum l₁ := by
  intro fuel
  induction fuel with
  | zero =>
    intro i amt _ l₁ j a ok l₂ hdec
    rw [linearTrace] at hdec
    exact absurd hdec (by simp)
  | succ fuel ih =>
    intro i amt hf l₁ j a ok l₂ hdec
    have hfu : 0 ≤ (fuel : ℚ) * u := mul_nonneg (by positivity) hu
    have hle : u ≤ amt := by push_cast at hf; nlinarith
    rw [linearTrace] at hdec
    match l₁, hdec with
    | [], hdec =>
      simp only [List.nil_append, List.cons.injEq] at hdec
      obtain ⟨he, -⟩ := hdec
      obtain ⟨-, ha, -⟩ := Event.attempt.inj he.symm
      simpa [ha] using hle
    | e₁ :: l₁', hdec =>
      simp only [List.cons_append, List.cons.injEq] at hdec
      obtain ⟨he₁, hdec⟩ := hdec
      match l₁', hdec with
      | [], hdec =>
        simp only [List.nil_append, List.cons.injEq] at hdec
        exact absurd hdec.1 (by simp)
      | e₂ :: l₁'', hdec =>
        simp only [List.cons_append, List.cons.injEq] at hdec
        obtain ⟨he₂, hdec⟩ := hdec
        have h2 : (fuel : ℚ) * u ≤ (if venue i then amt - u else amt) := by
          split
          · push_cast at hf; nlinarith
          · push_cast at hf; nlinarith
        have := ih (i + 1) _ h2 l₁'' j a ok l₂ hdec
        rw [← he₁, ← he₂]
        simp only [successSum_cons, successAmount_attempt, successAmount_sleep]
        cases hvi : venue i <;> simp [hvi] at this ⊢ <;> linarith

/-- The quantum of every attempt in a QUANTIZED trace is covered by the
remaining budget at the moment it is dispatched. -/
lemma quantizedTrace_dispatch (venue : ℕ → Bool) (iv : ℚ) (n : ℕ) :
    ∀ (fuel i : ℕ) (amt : ℚ), (fuel : ℚ) ≤ amt →
      ∀ (l₁ : List Event) (j : ℕ) (a : ℚ) (ok : Bool) (l₂ : List Event),
        quantizedTrace venue iv n fuel i = l₁ ++ Event.attempt j a ok :: l₂ →
        a ≤ amt - successSum l₁ := by
  intro fuel
  induction fuel with
  | zero =>
    intro i amt _ l₁ j a ok l₂ hdec
    rw [quantizedTrace] at hdec
    exact absurd hdec (by simp)
  | succ fuel ih =>
    intro i amt hf l₁ j a ok l₂ hdec
    have hle : (1 : ℚ) ≤ amt := by push_cast at hf; linarith
    have h2 : (fuel : ℚ) ≤ (if venue i then amt - 1 else amt) := by
      split
      · push_cast at hf; linarith
      · push_cast at hf; linarith
    rw [quantizedTrace] at hdec
    by_cases hi : i < n - 1
    · rw [if_pos hi] at hdec
      match l₁, hdec with
      | [], hdec =>
        simp only [List.nil_append, List.cons.injEq] at hdec
        obtain ⟨he, -⟩ := hdec
        obtain ⟨-, ha, -⟩ := Event.attempt.inj he.symm
        simpa [ha] using hle
      | e₁ :: l₁', hdec =>
        simp only [List.cons_append, List.cons.injEq] at hdec
        obtain ⟨he₁, hdec⟩ := hdec
        match l₁', hdec with
        | [], hdec =>
          simp only [List.nil_append, List.cons.injEq] at hdec
          exact absurd hdec.1 (by simp)
        | e₂ :: l₁'', hdec =>
          simp only [List.cons_append, List.cons.injEq] at hdec
          obtain ⟨he₂, hdec⟩ := hdec
          have := ih (i + 1) _ h2 l₁'' j a ok l₂ hdec
          rw [← he₁, ← he₂]
          simp only [successSum_cons, successAmount_attempt, successAmount_sleep]
          cases hvi : venue i <;> simp [hvi] at this ⊢ <;> linarith
    · rw [if_neg hi] at hdec
      match l₁, hdec with
      | [], hdec =>
        simp only [List.nil_append, List.cons.injEq] at hdec
        obtain ⟨he, -⟩ := hdec
        obtain ⟨-, ha, -⟩ := Event.attempt.inj he.symm
        simpa [ha] using hle
      | e₁ :: l₁', hdec =>
        simp only [List.cons_append, List.cons.injEq] at hdec
        obtain ⟨he₁, hdec⟩ := hdec
        have := ih (i + 1) _ h2 l₁' j a ok l₂ hdec
        rw [← he₁]
        simp only [successSum_cons, successAmount_attempt]
        cases hvi : venue i <;> simp [hvi] at this ⊢ <;> linarith

/-- `runTrace` in the QUANTIZED branch. -/
lemma runTrace_pos (venue : ℕ → Bool) (amt ts : ℚ)
    (hb : ts ≠ 0 ∧ round2 (amt / ts) < 1) :
    runTrace venue amt ts =
      if (goTrunc amt).toNat = 0 then []
      else
        quantizedTrace venue ((goTrunc (ts / (((goTrunc amt).toNat : ℕ) : ℚ))) : ℚ)
          ((goTrunc amt).toNat) ((goTrunc amt).toNat) 0 := by
  rw [runTrace, buildPlan_pos amt ts hb]

/-- `runTrace` in the LINEAR branch. -/
lemma runTrace_neg (venue : ℕ → Bool) (amt ts : ℚ)
    (hb : ¬(ts ≠ 0 ∧ round2 (amt / ts) < 1)) :
    runTrace venue amt ts =
      if (goTrunc ts).toNat = 0 then []
      else
        linearTrace venue (amt / (((goTrunc ts).toNat : ℕ) : ℚ))
          ((goTrunc ts).toNat) 0 := by
  rw [runTrace, buildPlan_neg amt ts hb]

/-- Every event of a run started on a non-negative budget consumes a
non-negative amount. -/
lemma runTrace_amount_nonneg (venue : ℕ → Bool) (amt ts : ℚ) (h : 0 ≤ amt) :
    ∀ e ∈ runTrace venue amt ts, 0 ≤ Event.successAmount e := by
  intro e he
  by_cases hb : ts ≠ 0 ∧ round2 (amt / ts) < 1
  · rw [runTrace_pos venue amt ts hb] at he
    by_cases h0 : (goTrunc amt).toNat = 0
    · rw [if_pos h0] at he
      simp at he
    · rw [if_neg h0] at he
      rcases mem_quantizedTrace _ _ _ _ _ _ he with ⟨j, rfl⟩ | rfl
      · simp only [successAmount_attempt]
        split <;> norm_num
      · simp
  · rw [runTrace_neg venue amt ts hb] at he
    by_cases h0 : (goTrunc ts).toNat = 0
    · rw [if_pos h0] at he
      simp at he
    · rw [if_neg h0] at he
      rcases mem_linearTrace _ _ _ _ _ he with ⟨j, rfl⟩ | rfl
      · have hu : 0 ≤ amt / (((goTrunc ts).toNat : ℕ) : ℚ) :=
          div_nonneg h (by positivity)
        simp only [successAmount_attempt]
        split
        · exact hu
        · exact le_refl 0
      · simp

lemma successSum_nonneg (l : List Event)
    (h : ∀ e ∈ l, 0 ≤ Event.successAmount e) : 0 ≤ successSum l := by
  induction l with
  | nil => simp
  | cons e l ih =>
    simp only [successSum_cons]
    have h1 := h e (List.mem_cons_self e l)
    have h2 := ih fun x hx => h x (List.mem_cons_of_mem e hx)
    linarith

/-- The attempts of a run are exactly the planned ones: indices
`0, ..., sliceCount - 1`, each for `sliceSize`, with the venue's verdict. -/
lemma runTrace_attempts (venue : ℕ → Bool) (amt ts : ℚ) :
    attemptsOf (runTrace venue amt ts) =
      (List.range (buildPlan amt ts).sliceCount).map
        (fun i => Event.attempt i (buildPlan amt ts).sliceSize (venue i)) := by
  by_cases hb : ts ≠ 0 ∧ round2 (amt / ts) < 1
  · rw [runTrace_pos venue amt ts hb, buildPlan_pos amt ts hb]
    by_cases h0 : (goTrunc amt).toNat = 0
    · rw [if_pos h0]
      show attemptsOf [] = (List.range (goTrunc amt).toNat).map _
      rw [h0]
      rfl
    · rw [if_neg h0, attemptsOf_quantizedTrace]
      rw [show (List.range (goTrunc amt).toNat) = List.range' 0 (goTrunc amt).toNat from
        List.range_eq_range' _]
  · rw [runTrace_neg venue amt ts hb, buildPlan_neg amt ts hb]
    by_cases h0 : (goTrunc ts).toNat = 0
    · rw [if_pos h0]
      show attemptsOf [] = (List.range (goTrunc ts).toNat).map _
      rw [h0]
      rfl
    · rw [if_neg h0, attemptsOf_linearTrace]
      rw [show (List.range (goTrunc ts).toNat) = List.range' 0 (goTrunc ts).toNat from
        List.range_eq_range' _]

/-- The attempt count of any run equals the plan's slice count. -/
lemma countAttempts_run (venue : ℕ → Bool) (amt ts : ℚ) (h : 0 ≤ amt) :
    countAttempts (runSchedule venue amt ts).2 = (buildPlan amt ts).sliceCount := by
  rw [countAttempts, runSchedule_snd venue amt ts h, runTrace_attempts]
  simp

/-- With an always-successful venue the run consumes `sliceCount * sliceSize`. -/
lemma successSum_runTrace_true (amt ts : ℚ) :
    successSum (runTrace (fun _ => true) amt ts) =
      ((buildPlan amt ts).sliceCount : ℚ) * (buildPlan amt ts).sliceSize := by
  by_cases hb : ts ≠ 0 ∧ round2 (amt / ts) < 1
  · rw [runTrace_pos _ amt ts hb, buildPlan_pos amt ts hb]
    dsimp only
    by_cases h0 : (goTrunc amt).toNat = 0
    · rw [if_pos h0, h0]
      simp
    · rw [if_neg h0, successSum_quantizedTrace_true]
      ring
  · rw [runTrace_neg _ amt ts hb, buildPlan_neg amt ts hb]
    dsimp only
    by_cases h0 : (goTrunc ts).toNat = 0
    · rw [if_pos h0, h0]
      simp
    · rw [if_neg h0, successSum_linearTrace_true]

@[simp]
lemma countAttempts_nil : countAttempts [] = 0 := rfl

@[simp]
lemma countAttempts_cons_attempt (i : ℕ) (a : ℚ) (ok : Bool) (l : List Event) :
    countAttempts (.attempt i a ok :: l) = countAttempts l + 1 := by
  simp [countAttempts, attemptsOf, List.filter]

@[simp]
lemma countAttempts_cons_sleep (s : ℚ) (l : List Event) :
    countAttempts (.sleep s :: l) = countAttempts l := by
  simp [countAttempts, attemptsOf, List.filter]

@[simp]
lemma countSleeps_nil : countSleeps [] = 0 := rfl

@[simp]
lemma countSleeps_cons_attempt (i : ℕ) (a : ℚ) (ok : Bool) (l : List Event) :
    countSleeps (.attempt i a ok :: l) = countSleeps l := by
  simp [countSleeps, List.filter]

@[simp]
lemma countSleeps_cons_sleep (s : ℚ) (l : List Event) :
    countSleeps (.sleep s :: l) = countSleeps l + 1 := by
  simp [countSleeps, List.filter]

/-- One unfolding of the LINEAR loop when the budget guard passes. -/
lemma linearLoop_succ_of_not_lt (venue : ℕ → Bool) (u : ℚ) (fuel i : ℕ)
    (amt : ℚ) (hg : ¬ amt < u) :
    linearLoop venue u (fuel + 1) i amt =
      ((linearLoop venue u fuel (i + 1) (if venue i then amt - u else amt)).1,
        Event.attempt i u (venue i) :: Event.sleep 1 ::
          (linearLoop venue u fuel (i + 1) (if venue i then amt - u else amt)).2) := by
  rw [linearLoop, if_neg hg]

/-- One unfolding of the QUANTIZED loop when the budget guard passes. -/
lemma quantizedLoop_succ_of_not_lt (venue : ℕ → Bool) (iv : ℚ) (n fuel i : ℕ)
    (amt : ℚ) (hg : ¬ amt < 1) :
    quantizedLoop venue iv n (fuel + 1) i amt =
      ((quantizedLoop venue iv n fuel (i + 1) (if venue i then amt - 1 else amt)).1,
        if i < n - 1 then
          Event.attempt i 1 (venue i) :: Event.sleep iv ::
            (quantizedLoop venue iv n fuel (i + 1)
              (if venue i then amt - 1 else amt)).2
        else
          Event.attempt i 1 (venue i) ::
            (quantizedLoop venue iv n fuel (i + 1)
              (if venue i then amt - 1 else amt)).2) := by
  rw [quantizedLoop, if_neg hg]
  split <;> rfl

/-- From any state, the LINEAR loop performs at most `fuel` attempts
(this bound does not depend on the budget arithmetic at all). -/
lemma linearLoop_attempts_le (venue : ℕ → Bool) (u : ℚ) :
    ∀ (fuel i : ℕ) (amt : ℚ),
      countAttempts (linearLoop venue u fuel i amt).2 ≤ fuel := by
  intro fuel
  induction fuel with
  | zero => intro i amt; simp [linearLoop]
  | succ fuel ih =>
    intro i amt
    by_cases hg : amt < u
    · rw [linearLoop, if_pos hg]
      simp
    · rw [linearLoop_succ_of_not_lt venue u fuel i amt hg]
      simp only [countAttempts_cons_attempt, countAttempts_cons_sleep]
      have := ih (i + 1) (if venue i then amt - u else amt)
      omega

/-- From any state, the QUANTIZED loop performs at most `fuel` attempts. -/
lemma quantizedLoop_attempts_le (venue : ℕ → Bool) (iv : ℚ) (n : ℕ) :
    ∀ (fuel i : ℕ) (amt : ℚ),
      countAttempts (quantizedLoop venue iv n fuel i amt).2 ≤ fuel := by
  intro fuel
  induction fuel with
  | zero => intro i amt; simp [quantizedLoop]
  | succ fuel ih =>
    intro i amt
    by_cases hg : amt < 1
    · rw [quantizedLoop, if_pos hg]
      simp
    · rw [quantizedLoop_succ_of_not_lt venue iv n fuel i amt hg]
      have := ih (i + 1) (if venue i then amt - 1 else amt)
      by_cases hi : i < n - 1
      · rw [if_pos hi]
        simp only [countAttempts_cons_attempt, countAttempts_cons_sleep]
        omega
      · rw [if_neg hi]
        simp only [countAttempts_cons_attempt]
        omega

/-- A run never dispatches more than `sliceCount` attempts, for any budget
and any venue: the loops are fuel-bounded by the plan. -/
lemma countAttempts_run_le (venue : ℕ → Bool) (amt ts : ℚ) :
    countAttempts (runSchedule venue amt ts).2 ≤ (buildPlan amt ts).sliceCount := by
  by_cases hb : ts ≠ 0 ∧ round2 (amt / ts) < 1
  · rw [runSchedule, runPlan, buildPlan_pos amt ts hb]
    dsimp only
    split
    · simp
    · exact quantizedLoop_attempts_le venue _ _ _ 0 amt
  · rw [runSchedule, runPlan, buildPlan_neg amt ts hb]
    dsimp only
    split
    · simp
    · exact linearLoop_attempts_le venue _ _ 0 amt

/-- From any state — in particular any float64-reachable one — the LINEAR
loop emits exactly one suspension per dispatched attempt (the sleep of Go
line 435 is unconditional). -/
lemma linearLoop_sleeps_eq_attempts (venue : ℕ → Bool) (u : ℚ) :
    ∀ (fuel i : ℕ) (amt : ℚ),
      countSleeps (linearLoop venue u fuel i amt).2 =
        countAttempts (linearLoop venue u fuel i amt).2 := by
  intro fuel
  induction fuel with
  | zero => intro i amt; simp [linearLoop]
  | succ fuel ih =>
    intro i amt
    by_cases hg : amt < u
    · rw [linearLoop, if_pos hg]
      simp
    · rw [linearLoop_succ_of_not_lt venue u fuel i amt hg]
      simp only [countSleeps_cons_attempt, countSleeps_cons_sleep,
        countAttempts_cons_attempt, countAttempts_cons_sleep]
      rw [ih (i + 1) (if venue i then amt - u else amt)]

/-- From any state, a non-empty LINEAR trace ends with the one-second
suspension: the loop also sleeps after the final dispatched attempt. -/
lemma linearLoop_ends_with_sleep (venue : ℕ → Bool) (u : ℚ) :
    ∀ (fuel i : ℕ) (amt : ℚ), (linearLoop venue u fuel i amt).2 ≠ [] →
      (linearLoop venue u fuel i amt).2.getLast? = some (Event.sleep 1) := by
  intro fuel
  induction fuel with
  | zero => intro i amt h; simp [linearLoop] at h
  | succ fuel ih =>
    intro i amt h
    rw [linearLoop_succ_of_not_lt venue u fuel i amt ?hg]
    case hg =>
      intro hg
      rw [linearLoop, if_pos hg] at h
      simp at h
    rcases hTc : (linearLoop venue u fuel (i + 1)
        (if venue i then amt - u else amt)).2 with - | ⟨e, T⟩
    · rfl
    · have h2 := ih (i + 1) (if venue i then amt - u else amt) (by rw [hTc]; simp)
      rw [hTc] at h2
      show (Event.attempt i u (venue i) :: Event.sleep 1 :: e :: T).getLast? =
        some (Event.sleep 1)
      rw [List.getLast?_cons_cons, List.getLast?_cons_cons]
      exact h2

/-! ## A binary64 model of the LINEAR-loop arithmetic

The exact-rational loops above cannot exhibit the one behaviour of the Go
program that depends on rounding: `usdtPerTrade = fl(amountToUse/n)` can
exceed `amountToUse/n`, so the repeated float64 subtractions of the LINEAR
loop can leave a residue below `usdtPerTrade` and trigger the line-422 guard
before all `numberOfTrades` iterations have run.  The model below implements
IEEE-754 binary64 arithmetic (round to nearest, ties to even) for
non-negative normal values — significand `m : ℕ` with exponent `e : ℤ`,
value `m * 2^e` — which is exactly the arithmetic of the Go `float64`
operations used on this path (Go mandates correctly rounded IEEE-754
doubles).  All values of the runs evaluated here are far inside the normal
range, so overflow and subnormals never arise. -/

def FP : Type := ℕ × ℤ

instance : DecidableEq FP := instDecidableEqProd

/-- Bit length of a natural number (fuel-based so the kernel can reduce it;
300 bits of fuel covers every intermediate value used here). -/
def bitLen : ℕ → ℕ → ℕ
  | 0, _ => 0
  | fuel + 1, n => if n = 0 then 0 else bitLen fuel (n / 2) + 1

/-- Round `M / 2^k` to the nearest integer, ties to even. -/
def rneShift (M k : ℕ) : ℕ :=
  if k = 0 then M
  else
    let q := M / 2 ^ k
    let r := M % 2 ^ k
    let half := 2 ^ (k - 1)
    if half < r then q + 1
    else if r < half then q
    else if q % 2 = 0 then q else q + 1

/-- Round the exact non-negative value `m * 2^e` to binary64: a 53-bit
significand, round to nearest, ties to even, normalised so the significand
is `0` or in `[2^52, 2^53)`. -/
def fpNorm (m : ℕ) (e : ℤ) : FP :=
  if m = 0 then (0, 0)
  else
    let L := bitLen 300 m
    if L ≤ 53 then (m * 2 ^ (53 - L), e - (53 - L))
    else
      let k := L - 53
      let m' := rneShift m k
      if m' = 2 ^ 53 then (2 ^ 52, e + k + 1) else (m', e + k)

/-- Binary64 subtraction of `y` from `x`, assuming `0 ≤ y ≤ x` (which the
loop guard guarantees at every use): the exact difference is formed after
aligning exponents and then rounded. -/
def fpSub (x y : FP) : FP :=
  let d := x.2 - y.2
  if 0 ≤ d then fpNorm (x.1 * 2 ^ d.toNat - y.1) y.2
  else fpNorm (x.1 - y.1 * 2 ^ (-d).toNat) x.2

/-- Binary64 multiplication of non-negative values. -/
def fpMul (x y : FP) : FP := fpNorm (x.1 * y.1) (x.2 + y.2)

/-- Binary64 division of non-negative values (`y ≠ 0`): the quotient is
computed with 60 guard bits plus a sticky bit, which suffices for correct
rounding of 53-bit operands. -/
def fpDiv (x y : FP) : FP :=
  if x.1 = 0 then (0, 0)
  else
    let N := x.1 * 2 ^ 60
    let q := N / y.1
    let r := N % y.1
    fpNorm (2 * q + (if r = 0 then 0 else 1)) (x.2 - y.2 - 61)

def fpOfNat (n : ℕ) : FP := fpNorm n 0

/-- The float64 comparison `x < y` for non-negative values. -/
def fpLt (x y : FP) : Bool :=
  let d := x.2 - y.2
  if 0 ≤ d then decide (x.1 * 2 ^ d.toNat < y.1) else decide (x.1 < y.1 * 2 ^ (-d).toNat)

/-- Go `int(x)` on a non-negative float64: truncation toward zero. -/
def fpTruncNat (x : FP) : ℕ :=
  if 0 ≤ x.2 then x.1 * 2 ^ x.2.toNat else x.1 / 2 ^ (-x.2).toNat

/-- `math.Round` on a non-negative float64: round half away from zero. -/
def fpRoundNat (x : FP) : ℕ :=
  if 0 ≤ x.2 then x.1 * 2 ^ x.2.toNat
  else
    let k := (-x.2).toNat
    let q := x.1 / 2 ^ k
    let r := x.1 % 2 ^ k
    if 2 ^ k ≤ 2 * r then q + 1 else q

/-- The exact rational value of a binary64 datum. -/
def fpVal (x : FP) : ℚ := (x.1 : ℚ) * (2 : ℚ) ^ x.2

/-- Line 375 over float64:
`usdtPerSecond := math.Round((amountToUse/totalSeconds)*100) / 100`. -/
def f64UsdtPerSecond (amt ts : FP) : FP :=
  fpDiv (fpOfNat (fpRoundNat (fpMul (fpDiv amt ts) (fpOfNat 100)))) (fpOfNat 100)

/-- The LINEAR loop of Go lines 421-436 over float64 values, returning the
final remaining amount and the number of dispatched attempts. -/
def f64LinearLoop (venue : ℕ → Bool) (per : FP) : ℕ → ℕ → FP → FP × ℕ
  | 0, _, amt => (amt, 0)
  | fuel + 1, i, amt =>
    if fpLt amt per then (amt, 0)
    else
      let ok := venue i
      let amt' := if ok then fpSub amt per else amt
      let rest := f64LinearLoop venue per fuel (i + 1) amt'
      (rest.1, rest.2 + 1)

/-- The LINEAR branch of `main` (Go lines 410-436) over float64:
`numberOfTrades := int(totalSeconds)`, `usdtPerTrade := amountToUse/n`,
then the loop. -/
def f64RunLinear (venue : ℕ → Bool) (amt ts : FP) : FP × ℕ :=
  let n := fpTruncNat ts
  if n = 0 then (amt, 0)
  else f64LinearLoop venue (fpDiv amt (fpOfNat n)) n 0 amt

/-- The binary64 value nearest to the decimal `3.03`, as `strconv.ParseFloat`
produces for the `-total-amount` flag: `303` and `100` are exactly
representable, so the correctly rounded quotient is that nearest double. -/
def fp303div100 : FP := fpDiv (fpOfNat 303) (fpOfNat 100)

def fpThree : FP := fpOfNat 3

/-! ## The claims -/

/-- C1: for every budget and every totalSeconds > 0 whose two-decimal rounded
rate `budget/totalSeconds` is at least 1.0, plan construction selects LINEAR
mode with `sliceCount = floor(totalSeconds)`, `sliceSize = budget/sliceCount`
and a one-second interval between attempts; in particular for budget 100 and
totalSeconds 50 the rate is 2.00, the mode is LINEAR, sliceCount is 50 and
sliceSize is 2.0. -/
theorem C1_linear_plan (budget ts : ℚ) (hts : 0 < ts)
    (hrate : 1 ≤ round2 (budget / ts)) :
    (buildPlan budget ts).mode = Mode.LINEAR ∧
    ((buildPlan budget ts).sliceCount : ℤ) = ⌊ts⌋ ∧
    (buildPlan budget ts).sliceSize = budget / ((buildPlan budget ts).sliceCount : ℚ) ∧
    (buildPlan budget ts).intervalSeconds = 1 ∧
    round2 ((100 : ℚ) / 50) = 2 ∧
    buildPlan 100 50 =
      { mode := Mode.LINEAR, sliceCount := 50, sliceSize := 2, intervalSeconds := 1 } := by
  have hb : ¬((ts : ℚ) ≠ 0 ∧ round2 (budget / ts) < 1) := by
    rintro ⟨-, hlt⟩
    linarith
  refine ⟨?_, ?_, ?_, ?_, ?_, ?_⟩
  · rw [buildPlan_neg budget ts hb]
  · rw [buildPlan_neg budget ts hb]
    simp only []
    rw [goTrunc_of_nonneg ts hts.le, Int.toNat_of_nonneg (Int.floor_nonneg.2 hts.le)]
  · rw [buildPlan_neg budget ts hb]
  · rw [buildPlan_neg budget ts hb]
  · norm_num [round2, goRound]
  · rw [buildPlan_neg 100 50 (by norm_num [round2, goRound])]
    rw [goTrunc_nat 50 50 (by norm_num)]
    norm_num [Plan.mk.injEq]

theorem C1_linear_plan_witness :
    (0 : ℚ) < 50 ∧ 1 ≤ round2 ((100 : ℚ) / 50) ∧
    ((buildPlan (100 : ℚ) 50).mode = Mode.LINEAR ∧
      ((buildPlan (100 : ℚ) 50).sliceCount : ℤ) = ⌊(50 : ℚ)⌋ ∧
      (buildPlan (100 : ℚ) 50).sliceSize =
        100 / ((buildPlan (100 : ℚ) 50).sliceCount : ℚ) ∧
      (buildPlan (100 : ℚ) 50).intervalSeconds = 1 ∧
      round2 ((100 : ℚ) / 50) = 2 ∧
      buildPlan 100 50 =
        { mode := Mode.LINEAR, sliceCount := 50, sliceSize := 2,
          intervalSeconds := 1 }) :=
  ⟨by norm_num, by norm_num [round2, goRound],
    C1_linear_plan 100 50 (by norm_num) (by norm_num [round2, goRound])⟩

/-- C2: for every non-negative budget and positive totalSeconds whose rounded
rate is below 1.0, plan construction selects QUANTIZED mode with
`sliceCount = floor(budget / quantum)` for the 1.0 quantum; with
`sliceCount = 0` the run returns immediately with no events and the budget
unchanged, otherwise `sliceSize = 1` and
`intervalSeconds = floor(totalSeconds / sliceCount)`; in particular budget 5
and totalSeconds 3600 give sliceCount 5 and intervalSeconds 720, and budget
0.5 gives an empty run. -/
theorem C2_quantized_plan (budget ts : ℚ) (hbud : 0 ≤ budget) (hts : 0 < ts)
    (hrate : round2 (budget / ts) < 1) :
    (buildPlan budget ts).mode = Mode.QUANTIZED ∧
    ((buildPlan budget ts).sliceCount : ℤ) = ⌊budget / 1⌋ ∧
    ((buildPlan budget ts).sliceCount = 0 →
      ∀ venue : ℕ → Bool, runSchedule venue budget ts = (budget, [])) ∧
    ((buildPlan budget ts).sliceCount ≠ 0 →
      (buildPlan budget ts).sliceSize = 1 ∧
      (buildPlan budget ts).intervalSeconds =
        ((⌊ts / ((buildPlan budget ts).sliceCount : ℚ)⌋ : ℤ) : ℚ)) ∧
    (buildPlan 5 3600).sliceCount = 5 ∧
    (buildPlan 5 3600).intervalSeconds = 720 ∧
    (∀ venue : ℕ → Bool, runSchedule venue (1 / 2) 3600 = (1 / 2, [])) := by
  have hb : (ts : ℚ) ≠ 0 ∧ round2 (budget / ts) < 1 := ⟨ne_of_gt hts, hrate⟩
  refine ⟨?_, ?_, ?_, ?_, ?_, ?_, ?_⟩
  · rw [buildPlan_pos budget ts hb]
  · rw [buildPlan_pos budget ts hb]
    simp only [div_one]
    rw [goTrunc_of_nonneg budget hbud, Int.toNat_of_nonneg (Int.floor_nonneg.2 hbud)]
  · intro h0 venue
    rw [runSchedule, runPlan, if_pos h0]
  · intro h0
    rw [buildPlan_pos budget ts hb]
    refine ⟨rfl, ?_⟩
    show ((goTrunc (ts / (((goTrunc budget).toNat : ℕ) : ℚ))) : ℚ) = _
    rw [goTrunc_of_nonneg _ (div_nonneg hts.le (by positivity))]
  · rw [buildPlan_pos 5 3600 (by norm_num [round2, goRound])]
    exact goTrunc_nat 5 5 (by norm_num)
  · rw [buildPlan_pos 5 3600 (by norm_num [round2, goRound])]
    show ((goTrunc ((3600 : ℚ) / (((goTrunc (5 : ℚ)).toNat : ℕ) : ℚ))) : ℚ) = 720
    rw [goTrunc_nat 5 5 (by norm_num)]
    norm_num [goTrunc]
  · intro venue
    rw [runSchedule, runPlan, buildPlan_pos (1 / 2) 3600 (by norm_num [round2, goRound])]
    norm_num [goTrunc]

theorem C2_quantized_plan_witness :
    (0 : ℚ) ≤ 5 ∧ (0 : ℚ) < 3600 ∧ round2 ((5 : ℚ) / 3600) < 1 ∧
    ((buildPlan (5 : ℚ) 3600).mode = Mode.QUANTIZED ∧
      ((buildPlan (5 : ℚ) 3600).sliceCount : ℤ) = ⌊(5 : ℚ) / 1⌋ ∧
      ((buildPlan (5 : ℚ) 3600).sliceCount = 0 →
        ∀ venue : ℕ → Bool, runSchedule venue 5 3600 = (5, [])) ∧
      ((buildPlan (5 : ℚ) 3600).sliceCount ≠ 0 →
        (buildPlan (5 : ℚ) 3600).sliceSize = 1 ∧
        (buildPlan (5 : ℚ) 3600).intervalSeconds =
          ((⌊(3600 : ℚ) / ((buildPlan (5 : ℚ) 3600).sliceCount : ℚ)⌋ : ℤ) : ℚ)) ∧
      (buildPlan 5 3600).sliceCount = 5 ∧
      (buildPlan 5 3600).intervalSeconds = 720 ∧
      (∀ venue : ℕ → Bool, runSchedule venue (1 / 2) 3600 = (1 / 2, []))) :=
  ⟨by norm_num, by norm_num, by norm_num [round2, goRound],
    C2_quantized_plan 5 3600 (by norm_num) (by norm_num)
      (by norm_num [round2, goRound])⟩

/-- C10: a parsed duration of zero seconds (e.g. input `"0s"`) makes the run
dispatch no order attempt and end with the budget unchanged, for every venue
and budget — the unguarded float64 division `amountToUse/totalSeconds`
produces `+Inf`/`NaN`, the `< 1.0` test is false, the LINEAR branch computes
`numberOfTrades = int(0) = 0` and returns before the loop. -/
theorem C10_zero_duration :
    parseDuration "0s" = .ok 0 ∧
    ∀ (venue : ℕ → Bool) (budget : ℚ), runSchedule venue budget 0 = (budget, []) := by
  refine ⟨rfl, fun venue budget => ?_⟩
  have hb : ¬((0 : ℚ) ≠ 0 ∧ round2 (budget / 0) < 1) := by
    rintro ⟨h, -⟩
    exact h rfl
  rw [runSchedule, runPlan, buildPlan_neg budget 0 hb]
  norm_num [goTrunc]

/-- C3: across every run the remaining budget is non-increasing; replaying a
further stretch of the trace never raises it; each attempt decrements the
replayed budget by exactly its dispatched amount when and only when it
succeeded (a failed dispatch leaves it unchanged); and at termination the sum
of the successful attempts' dispatched amounts (`successSum`) equals the
initial budget minus the final remaining budget. -/
theorem C3_budget_accounting (venue : ℕ → Bool) (amt ts : ℚ) (h : 0 ≤ amt) :
    (runSchedule venue amt ts).1 = amt - successSum (runSchedule venue amt ts).2 ∧
    (∀ l₁ l₂ l₃ : List Event, l₁ ++ l₂ ++ l₃ = (runSchedule venue amt ts).2 →
      replay amt (l₁ ++ l₂) ≤ replay amt l₁) ∧
    (∀ (l₁ : List Event) (i : ℕ) (a : ℚ) (ok : Bool) (l₂ : List Event),
      l₁ ++ Event.attempt i a ok :: l₂ = (runSchedule venue amt ts).2 →
      replay amt (l₁ ++ [Event.attempt i a ok]) =
        if ok then replay amt l₁ - a else replay amt l₁) := by
  have hfst := runSchedule_fst venue amt ts h
  have hsnd := runSchedule_snd venue amt ts h
  refine ⟨by rw [hfst, hsnd], ?_, ?_⟩
  · intro l₁ l₂ l₃ hdec
    rw [hsnd] at hdec
    have hnn : 0 ≤ successSum l₂ := by
      apply successSum_nonneg
      intro e he'
      apply runTrace_amount_nonneg venue amt ts h
      rw [← hdec]
      exact List.mem_append.2 (Or.inl (List.mem_append.2 (Or.inr he')))
    rw [replay, replay, successSum_append]
    linarith
  · intro l₁ i a ok l₂ _
    rw [replay, replay, successSum_append]
    cases ok <;> (simp [successSum]; try ring)

theorem C3_budget_accounting_witness :
    (0 : ℚ) ≤ 2 ∧
    ((runSchedule (fun _ => true) 2 2).1 =
        2 - successSum (runSchedule (fun _ => true) 2 2).2 ∧
      (∀ l₁ l₂ l₃ : List Event,
        l₁ ++ l₂ ++ l₃ = (runSchedule (fun _ => true) 2 2).2 →
        replay 2 (l₁ ++ l₂) ≤ replay 2 l₁) ∧
      (∀ (l₁ : List Event) (i : ℕ) (a : ℚ) (ok : Bool) (l₂ : List Event),
        l₁ ++ Event.attempt i a ok :: l₂ = (runSchedule (fun _ => true) 2 2).2 →
        replay 2 (l₁ ++ [Event.attempt i a ok]) =
          if ok then replay 2 l₁ - a else replay 2 l₁)) :=
  ⟨by norm_num, C3_budget_accounting (fun _ => true) 2 2 (by norm_num)⟩

set_option maxRecDepth 4000 in
/-- C4 counterexample: with budget 3.03 (the binary64 nearest to the decimal)
over 3 seconds the program takes the LINEAR branch (`usdtPerSecond = 1.01` is
not `< 1.0`) and plans 3 trades, but against the venue that fails every
third dispatch only 2 of the 3 scheduled attempts are made:
`usdtPerTrade = fl(3.03/3)` exceeds `3.03/3`, and after two successful
subtractions the float64 residue is below `usdtPerTrade`, so the line-422
budget guard stops the loop before the third attempt. -/
theorem C4_counterexample :
    fpLt (f64UsdtPerSecond fp303div100 fpThree) (fpOfNat 1) = false ∧
    fpTruncNat fpThree = 3 ∧
    (f64RunLinear failsEveryThird fp303div100 fpThree).2 = 2 ∧
    (f64RunLinear failsEveryThird fp303div100 fpThree).2 ≠ 3 :=
  ⟨by decide, by decide, by decide, by decide⟩

set_option maxRecDepth 4000 in
/-- At budget 3.03 over 3 seconds, the fails-every-third venue receives
exactly as many attempts as the always-succeeding venue, namely two. -/
lemma f64_run303_counts :
    (f64RunLinear failsEveryThird fp303div100 fpThree).2 =
      (f64RunLinear (fun _ => true) fp303div100 fpThree).2 ∧
    (f64RunLinear failsEveryThird fp303div100 fpThree).2 = 2 :=
  ⟨by decide, by decide⟩

/-- C4 as amended: a failed dispatch never aborts the loop — when the budget
guard passes, a failure leaves the remaining budget unchanged and the loop
proceeds to the next scheduled attempt (shown for one iteration of each
loop); for every budget and venue at most `sliceCount` attempts are ever
made; in QUANTIZED mode every venue — the fails-every-third one included —
still receives all `sliceCount` attempts (that arithmetic is float64-exact);
in LINEAR mode the budget guard may stop the run early on float64 rounding
residue irrespective of failures: at budget 3.03 over 3 seconds the
fails-every-third venue gets exactly as many attempts (two) as the
always-succeeding venue — the shortfall is caused by the guard, not by the
failures. -/
theorem C4_amended_fault_isolation :
    (∀ (venue : ℕ → Bool) (u : ℚ) (fuel i : ℕ) (amt : ℚ),
      ¬ amt < u → venue i = false →
      (linearLoop venue u (fuel + 1) i amt).1 =
        (linearLoop venue u fuel (i + 1) amt).1 ∧
      (linearLoop venue u (fuel + 1) i amt).2 =
        Event.attempt i u false :: Event.sleep 1 ::
          (linearLoop venue u fuel (i + 1) amt).2) ∧
    (∀ (venue : ℕ → Bool) (iv : ℚ) (n fuel i : ℕ) (amt : ℚ),
      ¬ amt < 1 → venue i = false →
      (quantizedLoop venue iv n (fuel + 1) i amt).1 =
        (quantizedLoop venue iv n fuel (i + 1) amt).1 ∧
      countAttempts (quantizedLoop venue iv n (fuel + 1) i amt).2 =
        countAttempts (quantizedLoop venue iv n fuel (i + 1) amt).2 + 1) ∧
    (∀ (venue : ℕ → Bool) (amt ts : ℚ),
      countAttempts (runSchedule venue amt ts).2 ≤ (buildPlan amt ts).sliceCount) ∧
    (∀ (venue : ℕ → Bool) (amt ts : ℚ), 0 ≤ amt →
      (buildPlan amt ts).mode = Mode.QUANTIZED →
      countAttempts (runSchedule venue amt ts).2 = (buildPlan amt ts).sliceCount) ∧
    ((f64RunLinear failsEveryThird fp303div100 fpThree).2 =
      (f64RunLinear (fun _ => true) fp303div100 fpThree).2 ∧
      (f64RunLinear failsEveryThird fp303div100 fpThree).2 = 2) := by
  refine ⟨?_, ?_, ?_, ?_, ?_⟩
  · intro venue u fuel i amt hg hv
    rw [linearLoop_succ_of_not_lt venue u fuel i amt hg, hv]
    simp
  · intro venue iv n fuel i amt hg hv
    rw [quantizedLoop_succ_of_not_lt venue iv n fuel i amt hg, hv]
    refine ⟨by simp, ?_⟩
    by_cases hi : i < n - 1
    · rw [if_pos hi]
      simp
    · rw [if_neg hi]
      simp
  · intro venue amt ts
    exact countAttempts_run_le venue amt ts
  · intro venue amt ts h _
    exact countAttempts_run venue amt ts h
  · exact f64_run303_counts

theorem C4_amended_fault_isolation_witness :
    (0 : ℚ) ≤ 5 ∧ (buildPlan (5 : ℚ) 3600).mode = Mode.QUANTIZED ∧
    countAttempts (runSchedule failsEveryThird 5 3600).2 =
      (buildPlan (5 : ℚ) 3600).sliceCount := by
  have hm : (buildPlan (5 : ℚ) 3600).mode = Mode.QUANTIZED := by
    rw [buildPlan_pos 5 3600 (by norm_num [round2, goRound])]
  exact ⟨by norm_num, hm,
    C4_amended_fault_isolation.2.2.2.1 failsEveryThird 5 3600 (by norm_num) hm⟩

/-- C5: both loops check the remaining budget against the next attempt's
required amount before dispatching: on a shortfall they return at once, with
the budget unchanged and no further attempt (the early stop is a plain
return, not an error); consequently no attempt of any run started on a
non-negative budget is ever dispatched for more than the remaining budget at
its dispatch time. -/
theorem C5_early_stop_guard :
    (∀ (venue : ℕ → Bool) (u : ℚ) (fuel i : ℕ) (amt : ℚ), amt < u →
      linearLoop venue u (fuel + 1) i amt = (amt, [])) ∧
    (∀ (venue : ℕ → Bool) (iv : ℚ) (n fuel i : ℕ) (amt : ℚ), amt < 1 →
      quantizedLoop venue iv n (fuel + 1) i amt = (amt, [])) ∧
    (∀ (venue : ℕ → Bool) (amt ts : ℚ), 0 ≤ amt →
      ∀ (l₁ : List Event) (j : ℕ) (a : ℚ) (ok : Bool) (l₂ : List Event),
        (runSchedule venue amt ts).2 = l₁ ++ Event.attempt j a ok :: l₂ →
        a ≤ replay amt l₁) := by
  refine ⟨?_, ?_, ?_⟩
  · intro venue u fuel i amt hlt
    rw [linearLoop, if_pos hlt]
  · intro venue iv n fuel i amt hlt
    rw [quantizedLoop, if_pos hlt]
  · intro venue amt ts h l₁ j a ok l₂ hdec
    rw [runSchedule_snd venue amt ts h] at hdec
    by_cases hb : ts ≠ 0 ∧ round2 (amt / ts) < 1
    · rw [runTrace_pos venue amt ts hb] at hdec
      by_cases h0 : (goTrunc amt).toNat = 0
      · rw [if_pos h0] at hdec
        exact absurd hdec (by simp)
      · rw [if_neg h0] at hdec
        have := quantizedTrace_dispatch venue _ _ _ 0 amt
          (goTrunc_toNat_le amt h) l₁ j a ok l₂ hdec
        rw [replay]
        linarith
    · rw [runTrace_neg venue amt ts hb] at hdec
      by_cases h0 : (goTrunc ts).toNat = 0
      · rw [if_pos h0] at hdec
        exact absurd hdec (by simp)
      · rw [if_neg h0] at hdec
        have hn : (((goTrunc ts).toNat : ℕ) : ℚ) ≠ 0 := by exact_mod_cast h0
        have hu : 0 ≤ amt / (((goTrunc ts).toNat : ℕ) : ℚ) :=
          div_nonneg h (by positivity)
        have hfu : (((goTrunc ts).toNat : ℕ) : ℚ) *
            (amt / (((goTrunc ts).toNat : ℕ) : ℚ)) ≤ amt :=
          le_of_eq (mul_div_cancel₀ _ hn)
        have := linearTrace_dispatch venue _ hu _ 0 amt hfu l₁ j a ok l₂ hdec
        rw [replay]
        linarith

theorem C5_early_stop_guard_witness :
    (1 : ℚ) < 3 ∧ linearLoop (fun _ => true) 3 1 0 1 = (1, []) :=
  ⟨by norm_num, C5_early_stop_guard.1 (fun _ => true) 3 0 0 1 (by norm_num)⟩

set_option maxRecDepth 4000 in
/-- At budget 3.03 over 3 seconds the always-succeeding venue receives two
of the three scheduled attempts. -/
lemma f64_all_success_counts :
    (f64RunLinear (fun _ => true) fp303div100 fpThree).2 = 2 ∧
    fpTruncNat fpThree = 3 :=
  ⟨by decide, by decide⟩

set_option maxRecDepth 4000 in
/-- C9 counterexample: with budget 3.03 over 3 seconds and every dispatch
succeeding, the program takes the LINEAR branch (`usdtPerSecond = 1.01` is
not `< 1.0`) with `sliceCount = 3`, yet only 2 attempts are dispatched and
the final remaining budget is nonzero (the binary64 residue
`4548635623644199 * 2^-52 ≈ 1.01`): the early-stop condition does trigger,
because `usdtPerTrade = fl(3.03/3)` exceeds the exact quotient. -/
theorem C9_counterexample :
    fpLt (f64UsdtPerSecond fp303div100 fpThree) (fpOfNat 1) = false ∧
    fpTruncNat fpThree = 3 ∧
    (f64RunLinear (fun _ => true) fp303div100 fpThree).2 = 2 ∧
    (f64RunLinear (fun _ => true) fp303div100 fpThree).2 ≠ 3 ∧
    fpVal (f64RunLinear (fun _ => true) fp303div100 fpThree).1 ≠ 0 := by
  refine ⟨by decide, by decide, by decide, by decide, ?_⟩
  rw [show (f64RunLinear (fun _ => true) fp303div100 fpThree).1 =
      ((4548635623644199 : ℕ), (-52 : ℤ)) from by decide]
  simp only [fpVal]
  exact mul_ne_zero (by norm_num) (zpow_ne_zero _ (by norm_num))

/-- C9 as amended: with every dispatch succeeding, at most `sliceCount`
attempts are dispatched and the final remaining budget is the initial budget
minus the sum of the dispatched amounts.  In QUANTIZED mode (whose budget
arithmetic is float64-exact) the early stop never triggers: exactly
`sliceCount` attempts are dispatched and the final budget is
`totalBudget - floor(totalBudget)`.  In LINEAR mode float64 rounding residue
can trigger the early stop: at budget 3.03 over 3 seconds only 2 of the 3
scheduled attempts run and the final budget is nonzero, not 0. -/
theorem C9_amended_all_success :
    (∀ amt ts : ℚ, countAttempts (runSchedule (fun _ => true) amt ts).2 ≤
      (buildPlan amt ts).sliceCount) ∧
    (∀ amt ts : ℚ, 0 ≤ amt →
      (runSchedule (fun _ => true) amt ts).1 =
        amt - successSum (runSchedule (fun _ => true) amt ts).2) ∧
    (∀ amt ts : ℚ, 0 ≤ amt → (buildPlan amt ts).mode = Mode.QUANTIZED →
      1 ≤ (buildPlan amt ts).sliceCount →
      countAttempts (runSchedule (fun _ => true) amt ts).2 =
        (buildPlan amt ts).sliceCount ∧
      (runSchedule (fun _ => true) amt ts).1 = amt - ((⌊amt⌋ : ℤ) : ℚ)) ∧
    ((f64RunLinear (fun _ => true) fp303div100 fpThree).2 = 2 ∧
      fpTruncNat fpThree = 3) := by
  refine ⟨?_, ?_, ?_, f64_all_success_counts⟩
  · intro amt ts
    exact countAttempts_run_le _ amt ts
  · intro amt ts h
    rw [runSchedule_fst _ amt ts h, runSchedule_snd _ amt ts h]
  · intro amt ts h hm _
    have hfst := runSchedule_fst (fun _ => true) amt ts h
    have hss := successSum_runTrace_true amt ts
    refine ⟨countAttempts_run _ amt ts h, ?_⟩
    by_cases hb : ts ≠ 0 ∧ round2 (amt / ts) < 1
    · rw [hfst, hss, buildPlan_pos amt ts hb]
      dsimp only
      rw [goTrunc_of_nonneg amt h]
      have hcast : ((⌊amt⌋.toNat : ℕ) : ℚ) = ((⌊amt⌋ : ℤ) : ℚ) := by
        exact_mod_cast congrArg (fun z => ((z : ℤ) : ℚ))
          (Int.toNat_of_nonneg (Int.floor_nonneg.2 h))
      rw [hcast]
      ring
    · rw [buildPlan_neg amt ts hb] at hm
      exact absurd hm (by simp)

theorem C9_amended_all_success_witness :
    (0 : ℚ) ≤ 5 ∧ (buildPlan (5 : ℚ) 3600).mode = Mode.QUANTIZED ∧
    1 ≤ (buildPlan (5 : ℚ) 3600).sliceCount ∧
    (countAttempts (runSchedule (fun _ => true) 5 3600).2 =
        (buildPlan (5 : ℚ) 3600).sliceCount ∧
      (runSchedule (fun _ => true) 5 3600).1 = 5 - ((⌊(5 : ℚ)⌋ : ℤ) : ℚ)) := by
  have hm : (buildPlan (5 : ℚ) 3600).mode = Mode.QUANTIZED := by
    rw [buildPlan_pos 5 3600 (by norm_num [round2, goRound])]
  have hn : 1 ≤ (buildPlan (5 : ℚ) 3600).sliceCount := by
    rw [buildPlan_pos 5 3600 (by norm_num [round2, goRound])]
    show 1 ≤ (goTrunc (5 : ℚ)).toNat
    rw [goTrunc_nat 5 5 (by norm_num)]
    norm_num
  exact ⟨by norm_num, hm, hn,
    C9_amended_all_success.2.2.1 5 3600 (by norm_num) hm hn⟩

/-- C6 counterexample: for budget 2 over 2 seconds the plan is LINEAR with
two slices and the run's final event is a one-second suspension — the LINEAR
loop (Go line 435) sleeps unconditionally, also after the final attempt,
contradicting the claim that no suspension follows the final attempt. -/
theorem C6_counterexample :
    (buildPlan 2 2).mode = Mode.LINEAR ∧
    1 ≤ (buildPlan 2 2).sliceCount ∧
    (runSchedule (fun _ => true) 2 2).2.getLast? = some (Event.sleep 1) := by
  have hb : ¬((2 : ℚ) ≠ 0 ∧ round2 ((2 : ℚ) / 2) < 1) := by
    norm_num [round2, goRound]
  have h2 : (goTrunc (2 : ℚ)).toNat = 2 := goTrunc_nat 2 2 (by norm_num)
  refine ⟨?_, ?_, ?_⟩
  · rw [buildPlan_neg 2 2 hb]
  · rw [buildPlan_neg 2 2 hb]
    dsimp only
    rw [h2]
    norm_num
  · rw [runSchedule_snd (fun _ => true) 2 2 (by norm_num), runTrace_neg _ 2 2 hb, h2]
    rw [if_neg (by norm_num : ¬ (2 : ℕ) = 0)]
    exact linearTrace_getLast _ _ 1 0

/-- C6 as amended: every suspension of a run started on a non-negative
budget lasts exactly the plan's `intervalSeconds`.  In QUANTIZED mode (whose
budget arithmetic is float64-exact) a run suspends only between consecutive
attempts: `sliceCount - 1` suspensions and none after the final attempt.  In
LINEAR mode, from any loop state — in particular any float64-reachable one —
the loop emits exactly one one-second suspension per dispatched attempt,
including the final one, so a non-empty LINEAR trace always ends with a
suspension (the suspensions equal the attempts actually dispatched, which
rounding residue can leave below `sliceCount`). -/
theorem C6_amended_sleep_discipline :
    (∀ (venue : ℕ → Bool) (amt ts : ℚ), 0 ≤ amt →
      ∀ s : ℚ, Event.sleep s ∈ (runSchedule venue amt ts).2 →
        s = (buildPlan amt ts).intervalSeconds) ∧
    (∀ (venue : ℕ → Bool) (amt ts : ℚ), 0 ≤ amt →
      (buildPlan amt ts).mode = Mode.QUANTIZED →
      1 ≤ (buildPlan amt ts).sliceCount →
      countSleeps (runSchedule venue amt ts).2 =
        (buildPlan amt ts).sliceCount - 1 ∧
      (runSchedule venue amt ts).2.getLast? =
        some (Event.attempt ((buildPlan amt ts).sliceCount - 1) 1
          (venue ((buildPlan amt ts).sliceCount - 1)))) ∧
    (∀ (venue : ℕ → Bool) (u : ℚ) (fuel i : ℕ) (amt : ℚ),
      countSleeps (linearLoop venue u fuel i amt).2 =
        countAttempts (linearLoop venue u fuel i amt).2) ∧
    (∀ (venue : ℕ → Bool) (u : ℚ) (fuel i : ℕ) (amt : ℚ),
      (linearLoop venue u fuel i amt).2 ≠ [] →
      (linearLoop venue u fuel i amt).2.getLast? = some (Event.sleep 1)) := by
  refine ⟨?_, ?_, ?_, ?_⟩
  · intro venue amt ts h s hs
    rw [runSchedule_snd venue amt ts h] at hs
    by_cases hb : ts ≠ 0 ∧ round2 (amt / ts) < 1
    · rw [runTrace_pos venue amt ts hb] at hs
      rw [buildPlan_pos amt ts hb]
      by_cases h0 : (goTrunc amt).toNat = 0
      · rw [if_pos h0] at hs
        simp at hs
      · rw [if_neg h0] at hs
        rcases mem_quantizedTrace _ _ _ _ _ _ hs with ⟨j, hj⟩ | hj
        · exact absurd hj (by simp)
        · exact Event.sleep.inj hj
    · rw [runTrace_neg venue amt ts hb] at hs
      rw [buildPlan_neg amt ts hb]
      by_cases h0 : (goTrunc ts).toNat = 0
      · rw [if_pos h0] at hs
        simp at hs
      · rw [if_neg h0] at hs
        rcases mem_linearTrace _ _ _ _ _ hs with ⟨j, hj⟩ | hj
        · exact absurd hj (by simp)
        · exact Event.sleep.inj hj
  · intro venue amt ts h hm hn
    by_cases hb : ts ≠ 0 ∧ round2 (amt / ts) < 1
    · rw [runSchedule_snd venue amt ts h, runTrace_pos venue amt ts hb]
      rw [buildPlan_pos amt ts hb] at hn ⊢
      dsimp only at hn ⊢
      obtain ⟨m, hm'⟩ : ∃ m, (goTrunc amt).toNat = m + 1 :=
        ⟨(goTrunc amt).toNat - 1, by omega⟩
      rw [hm', if_neg (by omega : ¬ m + 1 = 0)]
      refine ⟨?_, quantizedTrace_getLast venue _ (m + 1) m 0 (by omega)⟩
      rw [countSleeps_quantizedTrace venue _ (m + 1) m 0 (by omega)]
      omega
    · rw [buildPlan_neg amt ts hb] at hm
      exact absurd hm (by simp)
  · intro venue u fuel i amt
    exact linearLoop_sleeps_eq_attempts venue u fuel i amt
  · intro venue u fuel i amt
    exact linearLoop_ends_with_sleep venue u fuel i amt

theorem C6_amended_sleep_discipline_witness :
    (0 : ℚ) ≤ 5 ∧ (buildPlan (5 : ℚ) 3600).mode = Mode.QUANTIZED ∧
    1 ≤ (buildPlan (5 : ℚ) 3600).sliceCount ∧
    (countSleeps (runSchedule (fun _ => true) 5 3600).2 =
        (buildPlan (5 : ℚ) 3600).sliceCount - 1 ∧
      (runSchedule (fun _ => true) 5 3600).2.getLast? =
        some (Event.attempt ((buildPlan (5 : ℚ) 3600).sliceCount - 1) 1
          ((fun _ => true) ((buildPlan (5 : ℚ) 3600).sliceCount - 1)))) := by
  have hm : (buildPlan (5 : ℚ) 3600).mode = Mode.QUANTIZED := by
    rw [buildPlan_pos 5 3600 (by norm_num [round2, goRound])]
  have hn : 1 ≤ (buildPlan (5 : ℚ) 3600).sliceCount := by
    rw [buildPlan_pos 5 3600 (by norm_num [round2, goRound])]
    show 1 ≤ (goTrunc (5 : ℚ)).toNat
    rw [goTrunc_nat 5 5 (by norm_num)]
    norm_num
  exact ⟨by norm_num, hm, hn,
    C6_amended_sleep_discipline.2.1 (fun _ => true) 5 3600 (by norm_num) hm hn⟩

/-- C7 counterexample: `"1h"` does not match the claim's grammar (its unit
symbol is not in `{s, m, H, D, W, M}`), yet the parser rejects it with the
unit-switch error `"invalid time unit..."`, a different failure from the
regex error `"invalid duration format..."` the claim mandates. -/
theorem C7_counterexample :
    grammarMatch specUnitChars "1h" = false ∧
    parseDuration "1h" = .error .invalidUnit ∧
    DurationError.invalidUnit ≠ DurationError.invalidFormat := by
  refine ⟨rfl, rfl, ?_⟩
  intro hcontra
  exact absurd hcontra (by simp)

/-- C7 as amended: `parseDuration` is a total deterministic function; on any
input matching the grammar of digits followed by one of `{s, m, H, D, W, M}`
whose value fits a signed 64-bit integer it returns a span; a
grammar-matching value beyond that range fails `strconv.Atoi` and is
rejected with the invalid-number error; inputs whose unit is the lowercase
`h`, `d` or `w` (admitted by the code's regex class, absent from the spec's
unit set) are rejected with the distinct invalid-unit error; every other
input is rejected with the `InvalidFormat` regex error. -/
theorem C7_amended_parser_totality (s : String) :
    (grammarMatch specUnitChars s = true → digitsVal s ≤ maxInt64 →
      ∃ n, parseDuration s = .ok n) ∧
    (grammarMatch reUnitChars s = true → maxInt64 < digitsVal s →
      parseDuration s = .error .invalidNumber) ∧
    (grammarMatch reUnitChars s = true → grammarMatch specUnitChars s = false →
      digitsVal s ≤ maxInt64 → parseDuration s = .error .invalidUnit) ∧
    (grammarMatch reUnitChars s = false →
      parseDuration s = .error .invalidFormat) := by
  rcases hrev : s.data.reverse with - | ⟨u, revDs⟩
  · refine ⟨?_, ?_, ?_, ?_⟩ <;>
      simp [grammarMatch, digitsVal, parseDuration, hrev]
  · have hgm : ∀ units : List Char, grammarMatch units s =
        (!revDs.isEmpty && revDs.reverse.all Char.isDigit && units.contains u) := by
      intro units
      rw [grammarMatch, hrev]
    have hdv : digitsVal s = digitsToNat revDs.reverse := by
      rw [digitsVal, hrev]
    have hpd : parseDuration s =
        (if !revDs.isEmpty && revDs.reverse.all Char.isDigit &&
            reUnitChars.contains u then
          if digitsToNat revDs.reverse ≤ maxInt64 then
            if u = 's' then .ok (digitsToNat revDs.reverse)
            else if u = 'm' then .ok (digitsToNat revDs.reverse * 60)
            else if u = 'H' then .ok (digitsToNat revDs.reverse * 3600)
            else if u = 'D' then .ok (digitsToNat revDs.reverse * 86400)
            else if u = 'W' then .ok (digitsToNat revDs.reverse * 604800)
            else if u = 'M' then .ok (digitsToNat revDs.reverse * 2592000)
            else .error .invalidUnit
          else .error .invalidNumber
        else .error .invalidFormat) := by
      rw [parseDuration, hrev]
    refine ⟨?_, ?_, ?_, ?_⟩
    · intro hspec hval
      rw [hgm, Bool.and_eq_true] at hspec
      obtain ⟨hA, hu⟩ := hspec
      rw [hdv] at hval
      have hu6 : u = 's' ∨ u = 'm' ∨ u = 'H' ∨ u = 'D' ∨ u = 'W' ∨ u = 'M' := by
        simp [specUnitChars] at hu
        tauto
      rcases hu6 with rfl | rfl | rfl | rfl | rfl | rfl
      · rw [hpd, if_pos (by rw [hA]; rfl), if_pos hval, if_pos rfl]
        exact ⟨_, rfl⟩
      · rw [hpd, if_pos (by rw [hA]; rfl), if_pos hval, if_neg (by decide),
          if_pos rfl]
        exact ⟨_, rfl⟩
      · rw [hpd, if_pos (by rw [hA]; rfl), if_pos hval, if_neg (by decide),
          if_neg (by decide), if_pos rfl]
        exact ⟨_, rfl⟩
      · rw [hpd, if_pos (by rw [hA]; rfl), if_pos hval, if_neg (by decide),
          if_neg (by decide), if_neg (by decide), if_pos rfl]
        exact ⟨_, rfl⟩
      · rw [hpd, if_pos (by rw [hA]; rfl), if_pos hval, if_neg (by decide),
          if_neg (by decide), if_neg (by decide), if_neg (by decide), if_pos rfl]
        exact ⟨_, rfl⟩
      · rw [hpd, if_pos (by rw [hA]; rfl), if_pos hval, if_neg (by decide),
          if_neg (by decide), if_neg (by decide), if_neg (by decide),
          if_neg (by decide), if_pos rfl]
        exact ⟨_, rfl⟩
    · intro hre hval
      rw [hgm] at hre
      rw [hdv] at hval
      rw [hpd, if_pos hre, if_neg (not_le.2 hval)]
    · intro hre hspec hval
      rw [hgm, Bool.and_eq_true] at hre
      obtain ⟨hA, hu⟩ := hre
      rw [hgm, hA] at hspec
      rw [hdv] at hval
      have hu9 : u = 's' ∨ u = 'm' ∨ u = 'h' ∨ u = 'H' ∨ u = 'd' ∨ u = 'D' ∨
          u = 'w' ∨ u = 'W' ∨ u = 'M' := by
        simp [reUnitChars] at hu
        tauto
      rcases hu9 with rfl | rfl | rfl | rfl | rfl | rfl | rfl | rfl | rfl
      · exact absurd hspec (by decide)
      · exact absurd hspec (by decide)
      · rw [hpd, if_pos (by rw [hA]; rfl), if_pos hval, if_neg (by decide),
          if_neg (by decide), if_neg (by decide), if_neg (by decide),
          if_neg (by decide), if_neg (by decide)]
      · exact absurd hspec (by decide)
      · rw [hpd, if_pos (by rw [hA]; rfl), if_pos hval, if_neg (by decide),
          if_neg (by decide), if_neg (by decide), if_neg (by decide),
          if_neg (by decide), if_neg (by decide)]
      · exact absurd hspec (by decide)
      · rw [hpd, if_pos (by rw [hA]; rfl), if_pos hval, if_neg (by decide),
          if_neg (by decide), if_neg (by decide), if_neg (by decide),
          if_neg (by decide), if_neg (by decide)]
      · exact absurd hspec (by decide)
      · exact absurd hspec (by decide)
    · intro hre
      rw [hgm] at hre
      rw [hpd, if_neg (by rw [hre]; exact Bool.false_ne_true)]

theorem C7_amended_parser_totality_witness :
    grammarMatch specUnitChars "2H" = true ∧ digitsVal "2H" ≤ maxInt64 ∧
    (∃ n, parseDuration "2H" = .ok n) :=
  ⟨rfl, by decide, (C7_amended_parser_totality "2H").1 rfl (by decide)⟩

end BinanceBuyer
